import Mathlib

/-!
Verification of the sprint-label resolution Lambda (`src/lambda/index.ts`).

The TypeScript source is shallowly embedded below.  Conventions of the
embedding:

* `Map<number, string>` is modelled as an association list
  `List (Int × String)` together with `mapHas` / `mapGet` / `mapSet`,
  which mirror `Map.has` / `Map.get` / `Map.set` (insertion order is
  preserved, setting an existing key updates it in place, so a map built
  only through `mapSet` has pairwise-distinct keys).
* JavaScript numbers (as produced by `Number(...)` on override keys) are
  modelled by `JSNum`: positive and negative infinity plus finite values
  carried exactly as rationals.  `jsNumber` implements the ECMAScript
  StringToNumber conversion: whitespace trimming, the empty string as `0`,
  optionally signed decimal literals with fraction and exponent,
  `Infinity`, and unsigned hexadecimal / octal / binary literals; every
  other string is `NaN`, modelled as `none`.  Finite values are exact:
  the rounding JavaScript applies when fixing the result into an IEEE-754
  double is not modelled (no claim below depends on inputs where that
  rounding is visible), and negative zero is identified with zero,
  matching the SameValueZero equality that `Map` keys use.
* `String.prototype.split` (always called with a single-character
  separator here) is modelled by `jsSplit`, a structural recursion over
  the string's character list, and `slice(0, n)` by `List.take` on the
  character list; both agree with the JS semantics on every string.
* Optional fields (`Key?`, `VersionId?`, `LastModified?`) become `Option`;
  the `?? fallback` defaulting of the source is applied at exactly the
  places the source applies it.  `Date` values are modelled by their
  epoch-milliseconds as `Nat` (`jsTime`), which is all the handler reads.
* `Array.prototype.sort` with comparator `(a, b) => tb - ta` is a stable
  sort placing larger timestamps first; it is modelled by `List.mergeSort`
  with the matching total preorder.
* The handler's IO (S3 listing, tagging lookup, URL signing) is external
  input/output: the enumerated versions arrive as an explicit argument,
  and the rendered page is abstracted to the list of per-build rows the
  loop emits (each rendered row is exactly one `div` carrying one
  download link).  The commit-message tag and the presigned URL are
  collaborator outputs that no claim inspects, so `Row` omits them.
-/

/-- The `Environment` enum of the source (`'dev'` / `'qa'`). -/
inductive Environment where
  | DEV
  | QA
deriving DecidableEq, Repr

/-- The `ObjVersion` record type of the source: all three fields optional. -/
structure ObjVersion where
  Key : Option String
  VersionId : Option String
  /-- `LastModified` as epoch milliseconds. -/
  LastModified : Option Nat
deriving DecidableEq, Repr

/-- `new Date(d ?? 0).getTime()` as used by the sort comparator. -/
def jsTime (v : ObjVersion) : Nat :=
  v.LastModified.getD 0

/-- JavaScript `s.split(sep)` for a single-character separator `sep`,
as a structural recursion over the character list: `"".split(sep)` is
`[""]`, and every occurrence of `sep` opens a new field. -/
def jsSplit (sep : Char) (s : String) : List String :=
  (splitChars s.data).map List.asString
where
  /-- Field-splitting on the character list. -/
  splitChars : List Char → List (List Char)
    | [] => [[]]
    | c :: cs =>
      if c = sep then [] :: splitChars cs
      else
        match splitChars cs with
        | [] => [[c]]
        | f :: fs => (c :: f) :: fs

/-- `baseName` from the source: strip everything up to the last `/`. -/
def baseName (key : String) : String :=
  if key.data.contains '/' then ((jsSplit '/' key).getLast?).getD key else key

/-- A JavaScript number as produced by `Number(...)` on a string (`NaN`
excluded — the use sites carry it as `none`): positive or negative
infinity, or a finite value held exactly as a rational. -/
inductive JSNum where
  | negInf
  | num (q : ℚ)
  | posInf
deriving DecidableEq, Repr

/-- JavaScript `<` on (non-`NaN`) numbers. -/
def JSNum.lt : JSNum → JSNum → Bool
  | .negInf, .negInf => false
  | .negInf, _ => true
  | .num _, .posInf => true
  | .num a, .num b => a < b
  | .num _, .negInf => false
  | .posInf, _ => false

/-- JavaScript `<=` on (non-`NaN`) numbers. -/
def JSNum.le (a b : JSNum) : Bool :=
  !(JSNum.lt b a)

/-- JavaScript unary minus on (non-`NaN`) numbers. -/
def JSNum.neg : JSNum → JSNum
  | .negInf => .posInf
  | .num q => .num (-q)
  | .posInf => .negInf

/-- `Math.max` of two (non-`NaN`) numbers. -/
def jsMax (a b : JSNum) : JSNum :=
  if JSNum.lt a b then b else a

/-- The integer `z` as a JavaScript number. -/
def intJS (z : Int) : JSNum :=
  .num (z : ℚ)

/-- `Map.has` on the association-list model of `Map<number, string>`. -/
def mapHas (m : List (JSNum × String)) (k : JSNum) : Bool :=
  m.any (fun p => p.1 == k)

/-- `Map.get` on the association-list model of `Map<number, string>`. -/
def mapGet (m : List (JSNum × String)) (k : JSNum) : Option String :=
  (m.find? (fun p => p.1 == k)).map (fun p => p.2)

/-- `Map.set` on the association-list model of `Map<number, string>`:
update in place if the key exists, otherwise append. -/
def mapSet (m : List (JSNum × String)) (k : JSNum) (v : String) :
    List (JSNum × String) :=
  if m.any (fun p => p.1 == k) then
    m.map (fun p => if p.1 == k then (k, v) else p)
  else
    m ++ [(k, v)]

/-- The whitespace characters `Number` trims from its input (the ASCII
ones; the exotic Unicode space characters do not occur in this
repository's configuration). -/
def jsWhitespace (c : Char) : Bool :=
  c = ' ' || c = '\t' || c = '\n' || c = '\r' || c = '\x0b' || c = '\x0c'

/-- Trim `jsWhitespace` from both ends of a character list. -/
def jsTrim (l : List Char) : List Char :=
  ((l.dropWhile jsWhitespace).reverse.dropWhile jsWhitespace).reverse

/-- The numeric value of one digit character, in radices up to 16. -/
def digitVal? (c : Char) : Option Nat :=
  if '0' ≤ c ∧ c ≤ '9' then some (c.toNat - 48)
  else if 'a' ≤ c ∧ c ≤ 'f' then some (c.toNat - 87)
  else if 'A' ≤ c ∧ c ≤ 'F' then some (c.toNat - 55)
  else none

/-- The value of a non-empty digit string in the given radix; `none` if
the string is empty or has a character that is no digit of that radix. -/
def radixVal? (radix : Nat) (l : List Char) : Option Nat :=
  if l.isEmpty then none
  else
    l.foldl
      (fun acc c =>
        acc.bind fun n =>
          (digitVal? c).bind fun d =>
            if d < radix then some (n * radix + d) else none)
      (some 0)

/-- The exponent part of a decimal literal: absent (`0`), or `e`/`E`
followed by an optionally signed non-empty digit string; anything else
makes the whole literal `NaN`. -/
def parseExponent : List Char → Option Int
  | [] => some 0
  | c :: rest =>
    if c = 'e' ∨ c = 'E' then
      match rest with
      | '+' :: ds => (radixVal? 10 ds).map Int.ofNat
      | '-' :: ds => (radixVal? 10 ds).map (fun n => -(n : Int))
      | ds => (radixVal? 10 ds).map Int.ofNat
    else none

/-- The exact value `m * 10 ^ (e - fracLen)` of a decimal literal whose
integer-and-fraction digits have value `m`; built on the `ℤ` side when
the exponent does not dip below the fraction length. -/
def decValue (m fracLen : Nat) (e : Int) : JSNum :=
  if (fracLen : Int) ≤ e then
    .num (((m : Int) * 10 ^ (e - fracLen).toNat : Int) : ℚ)
  else
    .num ((m : ℚ) / (((10 : Int) ^ ((fracLen : Int) - e).toNat : Int) : ℚ))

/-- `StrUnsignedDecimalLiteral`: `Infinity`, digits with optional dot,
fraction digits and exponent, or a leading dot with fraction digits. -/
def parseUnsignedDec (l : List Char) : Option JSNum :=
  if l = ['I', 'n', 'f', 'i', 'n', 'i', 't', 'y'] then some .posInf
  else
    let intPart := l.takeWhile Char.isDigit
    let rest1 := l.dropWhile Char.isDigit
    match rest1 with
    | '.' :: rest2 =>
      let fracPart := rest2.takeWhile Char.isDigit
      let rest3 := rest2.dropWhile Char.isDigit
      if intPart.isEmpty && fracPart.isEmpty then none
      else
        match radixVal? 10 (intPart ++ fracPart), parseExponent rest3 with
        | some m, some e => some (decValue m fracPart.length e)
        | _, _ => none
    | rest =>
      if intPart.isEmpty then none
      else
        match radixVal? 10 intPart, parseExponent rest with
        | some m, some e => some (decValue m 0 e)
        | _, _ => none

/-- `StrDecimalLiteral`: an optional sign before the unsigned literal
(the radix literals take no sign). -/
def parseSignedDec : List Char → Option JSNum
  | '+' :: rest => parseUnsignedDec rest
  | '-' :: rest => (parseUnsignedDec rest).map JSNum.neg
  | l => parseUnsignedDec l

/-- An unsigned radix literal: what follows `0x`, `0o` or `0b`. -/
def parseRadix (radix : Nat) (ds : List Char) : Option JSNum :=
  (radixVal? radix ds).map (fun n => .num ((n : Int) : ℚ))

/-- JavaScript `Number(s)` on strings, `none` standing for `NaN`: the
ECMAScript StringToNumber conversion — trim, the empty remainder is `0`,
a hexadecimal / octal / binary literal, or a signed decimal literal or
`Infinity`. -/
def jsNumber (s : String) : Option JSNum :=
  match jsTrim s.data with
  | [] => some (.num 0)
  | '0' :: c :: rest =>
    if c = 'x' ∨ c = 'X' then parseRadix 16 rest
    else if c = 'o' ∨ c = 'O' then parseRadix 8 rest
    else if c = 'b' ∨ c = 'B' then parseRadix 2 rest
    else parseSignedDec ('0' :: c :: rest)
  | t => parseSignedDec t

/-- One iteration of the `raw.split(',').forEach` body of
`loadQaSprintOverrides`: split the entry on `:`, convert the first part
with `Number`, and keep the pair only if the key is not `NaN` and the
label part is present and non-empty (JS truthiness). -/
def applyOverrideEntry (overrides : List (JSNum × String)) (entry : String) :
    List (JSNum × String) :=
  let parts := jsSplit ':' entry
  let num := parts.headD ""
  let label := (parts.drop 1).headD ""
  match jsNumber num with
  | some sprintIndex =>
      if label ≠ "" then mapSet overrides sprintIndex label else overrides
  | none => overrides

/-- `loadQaSprintOverrides` from the source.  The argument is the raw
`QA_SPRINT_OVERRIDES` environment variable (`none` when unset);
`if (!raw)` also treats the empty string as absent. -/
def loadQaSprintOverrides (raw : Option String) : List (JSNum × String) :=
  match raw with
  | none => []
  | some r =>
      if r = "" then []
      else (jsSplit ',' r).foldl applyOverrideEntry []

/-- `shouldHideBaseSprint` from the source. -/
def shouldHideBaseSprint (sprintIndex : Int) (overrides : List (JSNum × String)) :
    Bool :=
  mapHas overrides (intJS sprintIndex)

/-- `resolveQaSprintLabel` from the source: direct override first, then the
hide check on `sprintIndex - 1`, then the shift-by-`size` branch for
indices above the highest override key, else the unshifted index. -/
def resolveQaSprintLabel (sprintIndex : Int) (overrides : List (JSNum × String)) :
    Option String :=
  if mapHas overrides (intJS sprintIndex) then
    mapGet overrides (intJS sprintIndex)
  else if shouldHideBaseSprint (sprintIndex - 1) overrides then
    none
  else
    let overrideCount := overrides.length
    if overrideCount > 0 then
      let highestOverride := maxKey overrides
      if JSNum.lt highestOverride (intJS sprintIndex) then
        some (toString (sprintIndex - overrideCount))
      else
        some (toString sprintIndex)
    else
      some (toString sprintIndex)
where
  /-- `Math.max(...overrides.keys())`; `Math.max()` of no arguments is
  negative infinity, and the branch only evaluates it on a non-empty
  map anyway. -/
  maxKey : List (JSNum × String) → JSNum
    | [] => .negInf
    | p :: ps => ps.foldl (fun acc q => jsMax acc q.1) p.1

/-- The comparator of `versions.sort((a, b) => tb - ta)`: newest first. -/
def newestFirst (a b : ObjVersion) : Bool :=
  jsTime b ≤ jsTime a

/-- `versions.sort(...)` — a stable sort putting larger `LastModified`
first, as JavaScript's stable `Array.prototype.sort` does with this
comparator. -/
def sortVersions (versions : List ObjVersion) : List ObjVersion :=
  versions.mergeSort newestFirst

/-- One rendered `version-item` div of the page: the data the loop body
interpolates into it (minus the presigned URL and commit-message tag,
which are collaborator outputs no claim inspects).  Each rendered row
carries exactly one download link. -/
structure Row where
  fileName : String
  /-- The resolved sprint label (`none` outside QA mode). -/
  sprintLabel : Option String
  /-- `Sprint: ...` in QA, `Version: ...` in DEV. -/
  versionLabel : String
  isLatest : Bool
  key : String
  versionId : String
deriving DecidableEq, Repr

/-- The body of the `for` loop for the build at position `i` (0-based,
newest first) out of `n`: `none` exactly when the loop `continue`s
without emitting a div. -/
def renderRow (environment : Environment) (overrides : List (JSNum × String))
    (latestKey latestVersionId : String) (n i : Nat) (v : ObjVersion) : Option Row :=
  let key := v.Key.getD ""
  let versionId := v.VersionId.getD ""
  let fileName := baseName key
  let isLatest := key == latestKey && versionId == latestVersionId
  let sprintIndex : Int := (n : Int) - (i : Int) + 1
  match environment with
  | .QA =>
    match resolveQaSprintLabel sprintIndex overrides with
    | none => none
    | some lbl =>
      some { fileName, sprintLabel := some lbl,
             versionLabel := "Sprint: " ++ lbl, isLatest, key, versionId }
  | .DEV =>
    some { fileName, sprintLabel := none,
           versionLabel := "Version: " ++ (versionId.data.take 10).asString ++ "...",
           isLatest, key, versionId }

/-- The `for (let i = 0; ...)` loop over the sorted versions, collecting
the rendered rows in order. -/
def renderLoop (environment : Environment) (overrides : List (JSNum × String))
    (latestKey latestVersionId : String) (n : Nat) :
    Nat → List ObjVersion → List Row
  | _, [] => []
  | i, v :: vs =>
    match renderRow environment overrides latestKey latestVersionId n i v with
    | some r => r :: renderLoop environment overrides latestKey latestVersionId n (i + 1) vs
    | none => renderLoop environment overrides latestKey latestVersionId n (i + 1) vs

/-- The three shapes of response the handler returns.  For the `page`
case the surrounding HTML template is fixed text; the rows are the whole
data content, so only they are carried. -/
inductive HandlerResult where
  | configError
  | noFiles
  | page (rows : List Row)
deriving DecidableEq, Repr

/-- `statusCode` of each response literal in the source. -/
def statusCode : HandlerResult → Nat
  | .configError => 500
  | _ => 200

/-- The rendered rows of a response (none outside the `page` case). -/
def rowsOf : HandlerResult → List Row
  | .page rows => rows
  | _ => []

/-- The exact body string of the two non-page responses; the full page
body is not reproduced (`none`), its build content being `rowsOf`. -/
def responseBody : HandlerResult → Option String
  | .configError => some "<html><body><h1>Configuration Error: BUCKET_NAME not set</h1></body></html>"
  | .noFiles => some "<html><body><h1>No files found</h1></body></html>"
  | .page _ => none

/-- The Lambda `handler`, as a pure function of its environment-variable
configuration (`bucket` = `BUCKET_NAME`, `qaOverridesRaw` =
`QA_SPRINT_OVERRIDES`, both `none` when unset) and of the object listing
the S3 collaborator returns (`resp.Versions || []`).  `if (!BUCKET)`
treats the unset and empty cases alike (JS falsiness). -/
def handler (bucket : Option String) (environment : Environment)
    (qaOverridesRaw : Option String) (versions : List ObjVersion) : HandlerResult :=
  if bucket.getD "" = "" then
    .configError
  else if versions.length = 0 then
    .noFiles
  else
    let sorted := sortVersions versions
    let latest := sorted.headD { Key := none, VersionId := none, LastModified := none }
    let latestKey := latest.Key.getD ""
    let latestVersionId := latest.VersionId.getD ""
    let qaSprintOverrides := loadQaSprintOverrides qaOverridesRaw
    .page (renderLoop environment qaSprintOverrides latestKey latestVersionId
      sorted.length 0 sorted)

/-- 10 concrete builds, already sorted newest-first, with pairwise
distinct `(Key, VersionId)` pairs and strictly decreasing timestamps:
the build set of the spec's worked example. -/
def exampleBuilds : List ObjVersion :=
  [⟨some "k1", some "v1", some 110⟩, ⟨some "k2", some "v2", some 109⟩,
   ⟨some "k3", some "v3", some 108⟩, ⟨some "k4", some "v4", some 107⟩,
   ⟨some "k5", some "v5", some 106⟩, ⟨some "k6", some "v6", some 105⟩,
   ⟨some "k7", some "v7", some 104⟩, ⟨some "k8", some "v8", some 103⟩,
   ⟨some "k9", some "v9", some 102⟩, ⟨some "k10", some "v10", some 101⟩]

/-- The override keys are exactly the integers of one contiguous run
`lo..hi`. -/
def contiguousRun (ov : List (JSNum × String)) (lo hi : Int) : Prop :=
  lo ≤ hi ∧ ∀ k : JSNum, mapHas ov k = true ↔ ∃ j : Int, intJS j = k ∧ lo ≤ j ∧ j ≤ hi

/-- The boolean the loop computes to decide the `LATEST` badge. -/
def pairMatch (lk lvid : String) (v : ObjVersion) : Bool :=
  v.Key.getD "" == lk && v.VersionId.getD "" == lvid

/-- `exampleBuilds` is already in the order the sort produces. -/
theorem sortVersions_exampleBuilds : sortVersions exampleBuilds = exampleBuilds :=
  List.mergeSort_of_sorted (by decide)

/-- `JSNum.le` is reflexive. -/
theorem jsle_refl (a : JSNum) : JSNum.le a a = true := by
  cases a <;> simp [JSNum.le, JSNum.lt]

/-- A strictly smaller number is also weakly smaller. -/
theorem jsle_of_jslt {a b : JSNum} (h : JSNum.lt a b = true) :
    JSNum.le a b = true := by
  cases a <;> cases b <;> simp_all [JSNum.le, JSNum.lt]
  all_goals linarith

/-- `JSNum.le` is transitive. -/
theorem jsle_trans {a b c : JSNum} (h1 : JSNum.le a b = true)
    (h2 : JSNum.le b c = true) : JSNum.le a c = true := by
  cases a <;> cases b <;> cases c <;> simp_all [JSNum.le, JSNum.lt]
  all_goals linarith

/-- `JSNum.le` is antisymmetric. -/
theorem jsle_antisymm {a b : JSNum} (h1 : JSNum.le a b = true)
    (h2 : JSNum.le b a = true) : a = b := by
  cases a <;> cases b <;> simp_all [JSNum.le, JSNum.lt]
  all_goals linarith

/-- The left argument is below `Math.max`. -/
theorem jsle_max_left (a b : JSNum) : JSNum.le a (jsMax a b) = true := by
  rw [jsMax]
  rcases h : JSNum.lt a b with _ | _
  · simpa [h] using jsle_refl a
  · simpa [h] using jsle_of_jslt h

/-- The right argument is below `Math.max`. -/
theorem jsle_max_right (a b : JSNum) : JSNum.le b (jsMax a b) = true := by
  rw [jsMax]
  rcases h : JSNum.lt a b with _ | _
  · have hba : JSNum.le b a = true := by simp [JSNum.le, h]
    simpa [h] using hba
  · simpa [h] using jsle_refl b

/-- `Math.max` is below any common upper bound. -/
theorem jsmax_le {a b c : JSNum} (h1 : JSNum.le a c = true)
    (h2 : JSNum.le b c = true) : JSNum.le (jsMax a b) c = true := by
  rw [jsMax]
  rcases h : JSNum.lt a b with _ | _ <;> simp [h, h1, h2]

/-- `intJS` is injective. -/
theorem intJS_inj {a b : Int} (h : intJS a = intJS b) : a = b := by
  simp only [intJS, JSNum.num.injEq] at h
  exact_mod_cast h

/-- `JSNum.lt` on two embedded integers is the integer strict order. -/
theorem intJS_lt {a b : Int} : JSNum.lt (intJS a) (intJS b) = true ↔ a < b := by
  simp only [intJS, JSNum.lt, decide_eq_true_eq]
  exact Int.cast_lt

/-- The negation of `intJS_lt`, in `Bool` form. -/
theorem intJS_lt_false {a b : Int} :
    JSNum.lt (intJS a) (intJS b) = false ↔ b ≤ a := by
  constructor
  · intro h
    by_contra hc
    rw [intJS_lt.mpr (by omega)] at h
    cases h
  · intro h
    rcases hx : JSNum.lt (intJS a) (intJS b) with _ | _
    · rfl
    · have := intJS_lt.mp hx
      omega

/-- `JSNum.le` on two embedded integers is the integer order. -/
theorem intJS_le {a b : Int} : JSNum.le (intJS a) (intJS b) = true ↔ a ≤ b := by
  constructor
  · intro h
    rcases hx : JSNum.lt (intJS b) (intJS a) with _ | _
    · exact intJS_lt_false.mp hx
    · rw [JSNum.le, hx] at h
      cases h
  · intro h
    rw [JSNum.le, intJS_lt_false.mpr h]
    rfl

/-- `mapHas` unfolded to an existence statement over the entries. -/
theorem mapHas_iff {m : List (JSNum × String)} {k : JSNum} :
    mapHas m k = true ↔ ∃ p ∈ m, p.1 = k := by
  simp [mapHas]

/-- A present key has an entry, and `mapGet` returns its value. -/
theorem mapGet_of_mapHas {m : List (JSNum × String)} {k : JSNum}
    (h : mapHas m k = true) : ∃ s, mapGet m k = some s := by
  rcases mapHas_iff.mp h with ⟨p, hp, hk⟩
  have : (m.find? (fun p => p.1 == k)).isSome := by
    rw [List.find?_isSome]
    exact ⟨p, hp, by simpa using hk⟩
  rcases Option.isSome_iff_exists.mp this with ⟨p0, hp0⟩
  exact ⟨p0.2, by simp [mapGet, hp0]⟩

/-- The `Math.max` fold is at least its starting value. -/
theorem le_foldl_max (l : List (JSNum × String)) (a : JSNum) :
    JSNum.le a (l.foldl (fun acc q => jsMax acc q.1) a) = true := by
  induction l generalizing a with
  | nil => simpa using jsle_refl a
  | cons p ps ih =>
    simp only [List.foldl_cons]
    exact jsle_trans (jsle_max_left a p.1) (ih (jsMax a p.1))

/-- Every key of the list is at most the `Math.max` fold. -/
theorem mem_le_foldl_max {l : List (JSNum × String)} {q : JSNum × String}
    (hq : q ∈ l) (a : JSNum) :
    JSNum.le q.1 (l.foldl (fun acc q => jsMax acc q.1) a) = true := by
  induction l generalizing a with
  | nil => simp at hq
  | cons p ps ih =>
    simp only [List.foldl_cons]
    rcases List.mem_cons.mp hq with h | h
    · subst h
      exact jsle_trans (jsle_max_right a q.1) (le_foldl_max ps (jsMax a q.1))
    · exact ih h (jsMax a p.1)

/-- The `Math.max` fold is bounded by any bound on the start and keys. -/
theorem foldl_max_le {l : List (JSNum × String)} {a B : JSNum}
    (ha : JSNum.le a B = true) (h : ∀ q ∈ l, JSNum.le q.1 B = true) :
    JSNum.le (l.foldl (fun acc q => jsMax acc q.1) a) B = true := by
  induction l generalizing a with
  | nil => simpa using ha
  | cons p ps ih =>
    simp only [List.foldl_cons]
    exact ih (jsmax_le ha (h p (List.mem_cons_self _ _)))
      (fun q hq => h q (List.mem_cons_of_mem _ hq))

/-- Every key is at most `maxKey` (on a non-empty map). -/
theorem le_maxKey {m : List (JSNum × String)} {q : JSNum × String} (hq : q ∈ m) :
    JSNum.le q.1 (resolveQaSprintLabel.maxKey m) = true := by
  cases m with
  | nil => simp at hq
  | cons p ps =>
    rcases List.mem_cons.mp hq with h | h
    · subst h
      exact le_foldl_max _ _
    · exact mem_le_foldl_max h _

/-- `maxKey` is bounded by any bound on the keys (on a non-empty map). -/
theorem maxKey_le {p : JSNum × String} {ps : List (JSNum × String)} {B : JSNum}
    (h : ∀ q ∈ p :: ps, JSNum.le q.1 B = true) :
    JSNum.le (resolveQaSprintLabel.maxKey (p :: ps)) B = true :=
  foldl_max_le (h p (List.mem_cons_self _ _)) (fun q hq => h q (List.mem_cons_of_mem _ hq))

/-- Branch lemma: a directly overridden index resolves to its `mapGet`. -/
theorem resolve_of_mapHas {ov : List (JSNum × String)} {i : Int}
    (h : mapHas ov (intJS i) = true) :
    resolveQaSprintLabel i ov = mapGet ov (intJS i) := by
  simp [resolveQaSprintLabel, h]

/-- Branch lemma: an index right above an overridden one is hidden. -/
theorem resolve_hidden {ov : List (JSNum × String)} {i : Int}
    (h : mapHas ov (intJS i) = false) (h1 : mapHas ov (intJS (i - 1)) = true) :
    resolveQaSprintLabel i ov = none := by
  simp [resolveQaSprintLabel, shouldHideBaseSprint, h, h1]

/-- Branch lemma: an index above the highest key (and not right above a
key) is shifted down by the map's size. -/
theorem resolve_shifted {ov : List (JSNum × String)} {i : Int}
    (h : mapHas ov (intJS i) = false) (h1 : mapHas ov (intJS (i - 1)) = false)
    (hne : ov ≠ [])
    (hgt : JSNum.lt (resolveQaSprintLabel.maxKey ov) (intJS i) = true) :
    resolveQaSprintLabel i ov = some (toString (i - ov.length)) := by
  have hlen : 0 < ov.length := List.length_pos.mpr hne
  simp [resolveQaSprintLabel, shouldHideBaseSprint, h, h1, hlen, hgt]

/-- Branch lemma: an index not above the highest key, not overridden and
not hidden keeps its raw value. -/
theorem resolve_unshifted {ov : List (JSNum × String)} {i : Int}
    (h : mapHas ov (intJS i) = false) (h1 : mapHas ov (intJS (i - 1)) = false)
    (hle : JSNum.lt (resolveQaSprintLabel.maxKey ov) (intJS i) = false) :
    resolveQaSprintLabel i ov = some (toString i) := by
  by_cases hne : ov = []
  · subst hne
    simp [resolveQaSprintLabel, shouldHideBaseSprint, h, h1]
  · have hlen : 0 < ov.length := List.length_pos.mpr hne
    simp [resolveQaSprintLabel, shouldHideBaseSprint, h, h1, hlen, hle]

/-- Branch lemma: with an empty override map every index keeps its raw
value. -/
theorem resolve_empty (i : Int) : resolveQaSprintLabel i [] = some (toString i) := by
  simp [resolveQaSprintLabel, shouldHideBaseSprint, mapHas]

/-- On a contiguous-run map, membership of an integer key is membership
of the run. -/
theorem contiguousRun_has_int {ov : List (JSNum × String)} {lo hi : Int}
    (h : contiguousRun ov lo hi) (i : Int) :
    mapHas ov (intJS i) = true ↔ (lo ≤ i ∧ i ≤ hi) := by
  rw [h.2 (intJS i)]
  constructor
  · rintro ⟨j, hj, h1, h2⟩
    have := intJS_inj hj
    omega
  · intro hb
    exact ⟨i, rfl, hb⟩

/-- A contiguous-run map is non-empty. -/
theorem contiguousRun_ne_nil {ov : List (JSNum × String)} {lo hi : Int}
    (h : contiguousRun ov lo hi) : ov ≠ [] := by
  have hlo : mapHas ov (intJS lo) = true :=
    (contiguousRun_has_int h lo).mpr ⟨le_refl lo, h.1⟩
  intro hnil
  subst hnil
  simp [mapHas] at hlo

/-- On a contiguous-run map, `maxKey` is the upper end of the run. -/
theorem maxKey_of_contiguousRun {ov : List (JSNum × String)} {lo hi : Int}
    (h : contiguousRun ov lo hi) :
    resolveQaSprintLabel.maxKey ov = intJS hi := by
  have hhi : mapHas ov (intJS hi) = true :=
    (contiguousRun_has_int h hi).mpr ⟨h.1, le_refl hi⟩
  rcases mapHas_iff.mp hhi with ⟨p, hp, hk⟩
  have h1 : JSNum.le (intJS hi) (resolveQaSprintLabel.maxKey ov) = true := by
    rw [← hk]
    exact le_maxKey hp
  have h2 : JSNum.le (resolveQaSprintLabel.maxKey ov) (intJS hi) = true := by
    cases ov with
    | nil => exact absurd rfl (contiguousRun_ne_nil h)
    | cons q qs =>
      apply maxKey_le
      intro r hr
      have hr2 : mapHas (q :: qs) r.1 = true := mapHas_iff.mpr ⟨r, hr, rfl⟩
      rcases (h.2 r.1).mp hr2 with ⟨j, hj, hj1, hj2⟩
      rw [← hj]
      exact intJS_le.mpr (by omega)
  exact jsle_antisymm h2 h1

/-- An emitted row copies the build's (defaulted) key and version id, and
its `isLatest` flag is exactly the comparison against the latest pair. -/
theorem renderRow_proj {env : Environment} {ov : List (JSNum × String)}
    {lk lvid : String} {n i : Nat} {v : ObjVersion} {r : Row}
    (h : renderRow env ov lk lvid n i v = some r) :
    r.key = v.Key.getD "" ∧ r.versionId = v.VersionId.getD "" ∧
    r.isLatest = (v.Key.getD "" == lk && v.VersionId.getD "" == lvid) := by
  cases env with
  | DEV =>
    rw [renderRow] at h
    simp only [Option.some.injEq] at h
    subst h
    exact ⟨rfl, rfl, rfl⟩
  | QA =>
    rw [renderRow] at h
    rcases hres : resolveQaSprintLabel ((n : Int) - (i : Int) + 1) ov with _ | lbl
    · rw [hres] at h
      cases h
    · rw [hres] at h
      simp only [Option.some.injEq] at h
      subst h
      exact ⟨rfl, rfl, rfl⟩

/-- Every row the loop emits has its `isLatest` flag equal to the
comparison of its own key and version id against the latest pair. -/
theorem renderLoop_isLatest_eq {env : Environment} {ov : List (JSNum × String)}
    {lk lvid : String} {n : Nat} :
    ∀ {vs : List ObjVersion} {i : Nat} {r : Row},
      r ∈ renderLoop env ov lk lvid n i vs →
      r.isLatest = (r.key == lk && r.versionId == lvid) := by
  intro vs
  induction vs with
  | nil => intro i r h; simp [renderLoop] at h
  | cons v vs ih =>
    intro i r h
    rw [renderLoop] at h
    rcases hrr : renderRow env ov lk lvid n i v with _ | r0
    · rw [hrr] at h
      exact ih h
    · rw [hrr] at h
      rcases List.mem_cons.mp h with h | h
      · subst h
        rcases renderRow_proj hrr with ⟨hk, hv, hl⟩
        rw [hl, hk, hv]
      · exact ih h

/-- In DEV mode the loop emits one row per build, so the number of
flagged rows is the number of builds matching the latest pair. -/
theorem renderLoop_filter_isLatest_dev {ov : List (JSNum × String)} {lk lvid : String}
    {n : Nat} :
    ∀ (vs : List ObjVersion) (i : Nat),
      ((renderLoop .DEV ov lk lvid n i vs).filter Row.isLatest).length
        = (vs.filter (pairMatch lk lvid)).length := by
  intro vs
  induction vs with
  | nil => intro i; simp [renderLoop]
  | cons v vs ih =>
    intro i
    rw [renderLoop, renderRow]
    have hpm2 : (v.Key.getD "" == lk && v.VersionId.getD "" == lvid)
        = pairMatch lk lvid v := rfl
    rw [List.filter_cons, List.filter_cons, hpm2]
    rcases hpm : pairMatch lk lvid v with _ | _ <;> simp [ih (i + 1)]

/-- In any mode the number of flagged rows is at most the number of
builds matching the latest pair. -/
theorem renderLoop_filter_isLatest_le {env : Environment} {ov : List (JSNum × String)}
    {lk lvid : String} {n : Nat} :
    ∀ (vs : List ObjVersion) (i : Nat),
      ((renderLoop env ov lk lvid n i vs).filter Row.isLatest).length
        ≤ (vs.filter (pairMatch lk lvid)).length := by
  intro vs
  induction vs with
  | nil => intro i; simp [renderLoop]
  | cons v vs ih =>
    intro i
    rw [renderLoop]
    rcases hrr : renderRow env ov lk lvid n i v with _ | r0
    · calc ((renderLoop env ov lk lvid n (i + 1) vs).filter Row.isLatest).length
          ≤ (vs.filter (pairMatch lk lvid)).length := ih (i + 1)
      _ ≤ ((v :: vs).filter (pairMatch lk lvid)).length := by
          rw [List.filter_cons]
          rcases pairMatch lk lvid v with _ | _ <;> simp
    · rcases renderRow_proj hrr with ⟨hk, hv, hl⟩
      rw [List.filter_cons, List.filter_cons]
      have hpm : r0.isLatest = pairMatch lk lvid v := by rw [hl]; rfl
      rcases hb : pairMatch lk lvid v with _ | _
      · rw [hpm, hb]
        simpa using ih (i + 1)
      · rw [hpm, hb]
        simp only [if_pos rfl, List.length_cons]
        exact Nat.succ_le_succ (ih (i + 1))

/-- The sort is a permutation of its input. -/
theorem sortVersions_perm (versions : List ObjVersion) :
    (sortVersions versions).Perm versions :=
  List.mergeSort_perm versions newestFirst

/-- The sorted list is pairwise newest-first. -/
theorem sortVersions_sorted (versions : List ObjVersion) :
    (sortVersions versions).Pairwise (fun a b => newestFirst a b = true) := by
  apply List.sorted_mergeSort
  · intro a b c hab hbc
    simp only [newestFirst, decide_eq_true_eq] at hab hbc ⊢
    omega
  · intro a b
    simp only [newestFirst, Bool.or_eq_true, decide_eq_true_eq]
    omega

/-- The head of the sorted list has the maximum timestamp. -/
theorem head_time_max {versions : List ObjVersion} {h0 : ObjVersion} {t : List ObjVersion}
    (hs : sortVersions versions = h0 :: t) :
    ∀ v ∈ versions, jsTime v ≤ jsTime h0 := by
  intro v hv
  have hv2 : v ∈ sortVersions versions := ((sortVersions_perm versions).mem_iff).mpr hv
  rw [hs] at hv2
  rcases List.mem_cons.mp hv2 with h | h
  · subst h
    exact le_refl _
  · have hp := sortVersions_sorted versions
    rw [hs] at hp
    have := (List.pairwise_cons.mp hp).1 v h
    simpa [newestFirst] using this

/-- Unfolding the handler on a configured bucket and a non-empty listing. -/
theorem handler_page {b : String} (hb : ¬ b = "") {env : Environment}
    {raw : Option String} {versions : List ObjVersion} (hne : versions ≠ []) :
    handler (some b) env raw versions =
      .page (renderLoop env (loadQaSprintOverrides raw)
        (((sortVersions versions).headD ⟨none, none, none⟩).Key.getD "")
        (((sortVersions versions).headD ⟨none, none, none⟩).VersionId.getD "")
        (sortVersions versions).length 0 (sortVersions versions)) := by
  rw [handler]
  simp only [Option.getD_some]
  rw [if_neg hb, if_neg (by simpa [List.length_eq_zero] using hne)]

/-- The tail of the sorted list never matches the latest pair when the
input pairs are pairwise distinct. -/
theorem filter_pairMatch_head {h0 : ObjVersion} {t : List ObjVersion}
    (hdist : (h0 :: t).Pairwise (fun u v =>
      (u.Key.getD "", u.VersionId.getD "") ≠ (v.Key.getD "", v.VersionId.getD ""))) :
    ((h0 :: t).filter (pairMatch (h0.Key.getD "") (h0.VersionId.getD ""))).length = 1 := by
  rw [List.filter_cons]
  have hh : pairMatch (h0.Key.getD "") (h0.VersionId.getD "") h0 = true := by
    simp [pairMatch]
  rw [hh]
  have ht : t.filter (pairMatch (h0.Key.getD "") (h0.VersionId.getD "")) = [] := by
    rw [List.filter_eq_nil_iff]
    intro v hv
    have hne := (List.pairwise_cons.mp hdist).1 v hv
    simp only [pairMatch, Bool.and_eq_true, beq_iff_eq, not_and]
    intro hk hv2
    exact hne (by rw [hk, hv2])
  simp [ht]

/-- The resolver returns `null` exactly for a non-overridden index whose
predecessor is overridden. -/
theorem resolve_none_iff {ov : List (JSNum × String)} {i : Int} :
    resolveQaSprintLabel i ov = none ↔
      (mapHas ov (intJS i) = false ∧ mapHas ov (intJS (i - 1)) = true) := by
  constructor
  · intro h
    rcases hasi : mapHas ov (intJS i) with _ | _
    · rcases hasi1 : mapHas ov (intJS (i - 1)) with _ | _
      · exfalso
        by_cases hne : ov = []
        · subst hne
          rw [resolve_empty] at h
          cases h
        · rcases hgt : JSNum.lt (resolveQaSprintLabel.maxKey ov) (intJS i) with _ | _
          · rw [resolve_unshifted hasi hasi1 hgt] at h
            cases h
          · rw [resolve_shifted hasi hasi1 hne hgt] at h
            cases h
      · exact ⟨rfl, rfl⟩
    · exfalso
      rcases mapGet_of_mapHas hasi with ⟨s, hs⟩
      rw [resolve_of_mapHas hasi, hs] at h
      cases h
  · intro h
    exact resolve_hidden h.1 h.2

/-- In QA mode the loop body emits nothing exactly when the resolver
returns `null`. -/
theorem renderRow_qa_none_iff {ov : List (JSNum × String)} {lk lvid : String}
    {n i : Nat} {v : ObjVersion} :
    renderRow .QA ov lk lvid n i v = none ↔
      resolveQaSprintLabel ((n : Int) - (i : Int) + 1) ov = none := by
  rw [renderRow]
  rcases hres : resolveQaSprintLabel ((n : Int) - (i : Int) + 1) ov with _ | lbl <;>
    simp

/-- C7: in QA mode, a build whose raw sprint index `r = n - i + 1` is not
an override key while `r - 1` is one gets `null` from the resolver and no
rendered row (no label, no download link); every other build contributes
exactly one rendered row to the loop's output. -/
theorem C7_base_successor_hidden (ov : List (JSNum × String)) (lk lvid : String)
    (n i : Nat) (v : ObjVersion) :
    (resolveQaSprintLabel ((n : Int) - (i : Int) + 1) ov = none ↔
      (mapHas ov (intJS ((n : Int) - (i : Int) + 1)) = false ∧
        mapHas ov (intJS ((n : Int) - (i : Int))) = true)) ∧
    (renderRow .QA ov lk lvid n i v = none ↔
      (mapHas ov (intJS ((n : Int) - (i : Int) + 1)) = false ∧
        mapHas ov (intJS ((n : Int) - (i : Int))) = true)) ∧
    (∀ vs : List ObjVersion,
      (renderLoop .QA ov lk lvid n i (v :: vs)).length =
        (if mapHas ov (intJS ((n : Int) - (i : Int) + 1)) = false ∧
            mapHas ov (intJS ((n : Int) - (i : Int))) = true
         then 0 else 1) + (renderLoop .QA ov lk lvid n (i + 1) vs).length) := by
  have hsub : (n : Int) - (i : Int) + 1 - 1 = (n : Int) - (i : Int) := by ring
  have h1 : resolveQaSprintLabel ((n : Int) - (i : Int) + 1) ov = none ↔
      (mapHas ov (intJS ((n : Int) - (i : Int) + 1)) = false ∧
        mapHas ov (intJS ((n : Int) - (i : Int))) = true) := by
    rw [resolve_none_iff, hsub]
  refine ⟨h1, renderRow_qa_none_iff.trans h1, ?_⟩
  intro vs
  rw [renderLoop]
  rcases hrr : renderRow .QA ov lk lvid n i v with _ | r0
  · rw [if_pos (h1.mp (renderRow_qa_none_iff.mp hrr))]
    simp
  · have : ¬ (mapHas ov (intJS ((n : Int) - (i : Int) + 1)) = false ∧
        mapHas ov (intJS ((n : Int) - (i : Int))) = true) := by
      intro hc
      rw [renderRow_qa_none_iff.mpr (h1.mpr hc)] at hrr
      cases hrr
    rw [if_neg this]
    simp [Nat.add_comm]

/-- C9: with no configured bucket the handler returns the single 500
configuration-error response, with no build rows, for every listing. -/
theorem C9_missing_bucket_fails_fast (env : Environment) (raw : Option String)
    (versions : List ObjVersion) :
    handler none env raw versions = HandlerResult.configError ∧
    statusCode (handler none env raw versions) = 500 ∧
    rowsOf (handler none env raw versions) = [] ∧
    responseBody (handler none env raw versions) =
      some "<html><body><h1>Configuration Error: BUCKET_NAME not set</h1></body></html>" := by
  have h : handler none env raw versions = HandlerResult.configError := by
    rw [handler]
    simp
  exact ⟨h, by rw [h]; rfl, by rw [h]; rfl, by rw [h]; rfl⟩

/-- C10: an empty listing is a 200 response with the documented
"No files found" body and no build rows. -/
theorem C10_empty_listing_not_error (env : Environment) (raw : Option String)
    (b : String) (hb : b ≠ "") :
    handler (some b) env raw [] = HandlerResult.noFiles ∧
    statusCode (handler (some b) env raw []) = 200 ∧
    rowsOf (handler (some b) env raw []) = [] ∧
    responseBody (handler (some b) env raw []) =
      some "<html><body><h1>No files found</h1></body></html>" := by
  have h : handler (some b) env raw [] = HandlerResult.noFiles := by
    rw [handler]
    simp [hb]
  exact ⟨h, by rw [h]; rfl, by rw [h]; rfl, by rw [h]; rfl⟩

/-- C10 witness at a concrete bucket name. -/
theorem C10_witness :
    handler (some "bucket") .QA none [] = HandlerResult.noFiles ∧
    statusCode (handler (some "bucket") .QA none []) = 200 ∧
    rowsOf (handler (some "bucket") .QA none []) = [] ∧
    responseBody (handler (some "bucket") .QA none []) =
      some "<html><body><h1>No files found</h1></body></html>" :=
  C10_empty_listing_not_error .QA none "bucket" (by decide)

/-- C6 evaluation at the failing input: with the gapped override set
`{5 : "A", 9 : "B"}`, raw index 7 (strictly between the minimum and
maximum override keys, itself not overridden) falls through to its
unshifted raw label `"7"` — exactly what the specification forbids. -/
theorem C6_gap_falls_through_unshifted :
    resolveQaSprintLabel 7 [(intJS 5, "A"), (intJS 9, "B")] = some (toString (7 : Int)) := by
  decide

/-- C1 counterexample: on the spec's own worked example (10 builds
newest-first, overrides `{8 : "8A", 9 : "8B"}`) the handler does NOT
produce the claimed table — it renders only 9 of the 10 builds and does
not label the two indices above the overrides `"10"` and `"11"`. -/
theorem C1_counterexample :
    ¬ ((rowsOf (handler (some "bucket") .QA (some "8:8A,9:8B") exampleBuilds)).length = 10 ∧
      (rowsOf (handler (some "bucket") .QA (some "8:8A,9:8B") exampleBuilds)).map
          Row.sprintLabel =
        [some "11", some "10", some "8B", some "8A", some "7", some "6", some "5",
         some "4", some "3", some "2"]) := by
  simp only [handler, sortVersions_exampleBuilds]
  decide

/-- C1 amended: what the handler actually renders on that input — the
build at raw index 10 is hidden (9 rows, none for key `"k2"`), raw
indices 8 and 9 keep their overrides, raw index 11 is shifted down by the
override count to `"9"`, raw indices 2..7 are unshifted, and the newest
build (raw index 11, key `"k1"`) is the one flagged latest. -/
theorem C1_amended_rendering :
    (rowsOf (handler (some "bucket") .QA (some "8:8A,9:8B") exampleBuilds)).map
        Row.sprintLabel =
      [some "9", some "8B", some "8A", some "7", some "6", some "5", some "4",
       some "3", some "2"] ∧
    (rowsOf (handler (some "bucket") .QA (some "8:8A,9:8B") exampleBuilds)).length = 9 ∧
    (∀ r ∈ rowsOf (handler (some "bucket") .QA (some "8:8A,9:8B") exampleBuilds),
      r.key ≠ "k2") ∧
    (∀ r ∈ rowsOf (handler (some "bucket") .QA (some "8:8A,9:8B") exampleBuilds),
      r.isLatest = true ↔ r.key = "k1") := by
  simp only [handler, sortVersions_exampleBuilds]
  decide

/-- C2 counterexample: for the contiguous override run `{8 : "8A",
9 : "8B"}` (k = 2 keys) and raw index 11 (strictly above the maximum key
and not a key), the claimed label `String(11 - (k - 1)) = "10"` is not
what the resolver returns. -/
theorem C2_counterexample :
    resolveQaSprintLabel 11 (loadQaSprintOverrides (some "8:8A,9:8B")) ≠
      some (toString ((11 : Int) - (2 - 1))) := by
  decide

/-- C2 amended: on a contiguous override run the resolver shifts indices
strictly above `max + 1` down by the full map size `k` (not `k - 1`),
and the index `max + 1` itself resolves to `null` (hidden) rather than to
a shifted label. -/
theorem C2_amended_shift_by_size (ov : List (JSNum × String)) (lo hi : Int)
    (hrun : contiguousRun ov lo hi) :
    (∀ i : Int, i > hi + 1 →
      resolveQaSprintLabel i ov = some (toString (i - ov.length))) ∧
    resolveQaSprintLabel (hi + 1) ov = none := by
  have hne := contiguousRun_ne_nil hrun
  have hmax := maxKey_of_contiguousRun hrun
  have hlohi := hrun.1
  constructor
  · intro i hgt
    have hasi : mapHas ov (intJS i) = false := by
      rcases h : mapHas ov (intJS i) with _ | _
      · rfl
      · exfalso
        have hb := (contiguousRun_has_int hrun i).mp h
        omega
    have hasi1 : mapHas ov (intJS (i - 1)) = false := by
      rcases h : mapHas ov (intJS (i - 1)) with _ | _
      · rfl
      · exfalso
        have hb := (contiguousRun_has_int hrun (i - 1)).mp h
        omega
    refine resolve_shifted hasi hasi1 hne ?_
    rw [hmax]
    exact intJS_lt.mpr (by omega)
  · have h1 : mapHas ov (intJS (hi + 1)) = false := by
      rcases h : mapHas ov (intJS (hi + 1)) with _ | _
      · rfl
      · exfalso
        have hb := (contiguousRun_has_int hrun (hi + 1)).mp h
        omega
    have h2 : mapHas ov (intJS (hi + 1 - 1)) = true := by
      have he : hi + 1 - 1 = hi := by ring
      rw [he]
      exact (contiguousRun_has_int hrun hi).mpr ⟨hlohi, le_refl hi⟩
    exact resolve_hidden h1 h2

/-- C2 witness at the overrides `{8 : "8A", 9 : "8B"}`: index 11 is
shifted by 2 to `"9"` and index 10 is hidden. -/
theorem C2_witness :
    resolveQaSprintLabel 11 [(intJS 8, "8A"), (intJS 9, "8B")] = some "9" ∧
    resolveQaSprintLabel 10 [(intJS 8, "8A"), (intJS 9, "8B")] = none := by
  have hrun : contiguousRun [(intJS 8, "8A"), (intJS 9, "8B")] 8 9 := by
    refine ⟨by decide, ?_⟩
    intro k
    simp only [mapHas, List.any_cons, List.any_nil, Bool.or_eq_true, Bool.or_false,
      beq_iff_eq]
    constructor
    · rintro (h | h)
      · exact ⟨8, h, by omega, by omega⟩
      · exact ⟨9, h, by omega, by omega⟩
    · rintro ⟨j, hj, hj1, hj2⟩
      have hj89 : j = 8 ∨ j = 9 := by omega
      rcases hj89 with rfl | rfl
      · exact Or.inl hj
      · exact Or.inr hj
  have h := C2_amended_shift_by_size [(intJS 8, "8A"), (intJS 9, "8B")] 8 9 hrun
  constructor
  · have h1 := h.1 11 (by decide)
    rw [h1]
    decide
  · exact h.2

/-- C4 counterexample: two runs on the same 10 builds differing only in
the OverrideMap (empty vs `{10 : "X"}`) render different latest sets —
the second override configuration hides the newest build entirely, so no
rendered row carries the latest flag. -/
theorem C4_counterexample :
    ¬ (((rowsOf (handler (some "bucket") .QA none exampleBuilds)).filter
          Row.isLatest).map Row.key =
        ((rowsOf (handler (some "bucket") .QA (some "10:X") exampleBuilds)).filter
          Row.isLatest).map Row.key) := by
  simp only [handler, sortVersions_exampleBuilds]
  decide

/-- C4 amended: the identity (key and version id) of any rendered row
flagged latest is independent of the override configuration — any two
flagged rows from two runs that differ only in the raw override string
agree on key and version id — but an override can hide the latest build,
in which case its run renders no flagged row at all. -/
theorem C4_amended_latest_identity_independent (b : String) (env : Environment)
    (raw₁ raw₂ : Option String) (versions : List ObjVersion) (r₁ r₂ : Row)
    (h₁ : r₁ ∈ rowsOf (handler (some b) env raw₁ versions)) (hl₁ : r₁.isLatest = true)
    (h₂ : r₂ ∈ rowsOf (handler (some b) env raw₂ versions)) (hl₂ : r₂.isLatest = true) :
    r₁.key = r₂.key ∧ r₁.versionId = r₂.versionId := by
  by_cases hb : b = ""
  · subst hb
    rw [handler] at h₁
    simp [rowsOf] at h₁
  · by_cases hne : versions = []
    · subst hne
      rw [handler] at h₁
      simp [hb, rowsOf] at h₁
    · rw [handler_page hb hne] at h₁ h₂
      simp only [rowsOf] at h₁ h₂
      have e₁ := renderLoop_isLatest_eq h₁
      have e₂ := renderLoop_isLatest_eq h₂
      rw [hl₁] at e₁
      rw [hl₂] at e₂
      have k₁ := e₁.symm
      have k₂ := e₂.symm
      simp only [Bool.and_eq_true, beq_iff_eq] at k₁ k₂
      exact ⟨k₁.1.trans k₂.1.symm, k₁.2.trans k₂.2.symm⟩

/-- C4 witness: with no overrides and with `{8 : "8A", 9 : "8B"}`, the
flagged rows of the two runs on the example builds carry the same build
identity. -/
theorem C4_witness :
    (⟨"k1", some "11", "Sprint: 11", true, "k1", "v1"⟩ : Row).key =
      (⟨"k1", some "9", "Sprint: 9", true, "k1", "v1"⟩ : Row).key ∧
    (⟨"k1", some "11", "Sprint: 11", true, "k1", "v1"⟩ : Row).versionId =
      (⟨"k1", some "9", "Sprint: 9", true, "k1", "v1"⟩ : Row).versionId :=
  C4_amended_latest_identity_independent "bucket" .QA none (some "8:8A,9:8B")
    exampleBuilds
    ⟨"k1", some "11", "Sprint: 11", true, "k1", "v1"⟩
    ⟨"k1", some "9", "Sprint: 9", true, "k1", "v1"⟩
    (by simp only [handler, sortVersions_exampleBuilds]; decide)
    rfl
    (by simp only [handler, sortVersions_exampleBuilds]; decide)
    rfl

/-- Sorting a non-empty list yields a non-empty list. -/
theorem sortVersions_ne_nil {versions : List ObjVersion} (hne : versions ≠ []) :
    sortVersions versions ≠ [] := by
  intro hs
  have hlen := (sortVersions_perm versions).length_eq
  rw [hs] at hlen
  exact hne (List.length_eq_zero.mp hlen.symm)

/-- C5 counterexample: a non-empty build list (one build, distinct pair)
whose single build is hidden by the override `{1 : "X"}` renders zero
rows flagged latest, not exactly one. -/
theorem C5_counterexample :
    ¬ (((rowsOf (handler (some "bucket") .QA (some "1:X")
          [⟨some "k", some "v", some 100⟩])).filter Row.isLatest).length = 1) := by
  simp only [handler, sortVersions, List.mergeSort_singleton]
  decide

/-- C5 amended: with pairwise-distinct `(Key, VersionId)` pairs, an empty
listing renders no rows; a non-empty listing renders exactly one row
flagged latest in DEV mode and at most one in any mode; and every
flagged row carries the key and version id of the newest build — the
build whose `modifiedAt` is maximal over the whole input. -/
theorem C5_amended_exactly_one_latest (b : String) (env : Environment)
    (raw : Option String) (versions : List ObjVersion) (hb : b ≠ "")
    (hdist : versions.Pairwise (fun u v =>
      (u.Key.getD "", u.VersionId.getD "") ≠ (v.Key.getD "", v.VersionId.getD ""))) :
    rowsOf (handler (some b) env raw []) = [] ∧
    (versions ≠ [] →
      ((rowsOf (handler (some b) .DEV raw versions)).filter Row.isLatest).length = 1) ∧
    ((rowsOf (handler (some b) env raw versions)).filter Row.isLatest).length ≤ 1 ∧
    (∀ r ∈ rowsOf (handler (some b) env raw versions), r.isLatest = true →
      r.key = ((sortVersions versions).headD ⟨none, none, none⟩).Key.getD "" ∧
      r.versionId = ((sortVersions versions).headD ⟨none, none, none⟩).VersionId.getD "" ∧
      ∀ v ∈ versions, jsTime v ≤ jsTime ((sortVersions versions).headD ⟨none, none, none⟩)) := by
  have hempty : rowsOf (handler (some b) env raw []) = [] := by
    rw [handler]
    simp [hb, rowsOf]
  refine ⟨hempty, ?_, ?_, ?_⟩
  · intro hne
    rcases hs : sortVersions versions with _ | ⟨h0, t⟩
    · exact absurd hs (sortVersions_ne_nil hne)
    · rw [handler_page hb hne]
      simp only [rowsOf]
      rw [renderLoop_filter_isLatest_dev]
      have hdists : (sortVersions versions).Pairwise (fun u v =>
          (u.Key.getD "", u.VersionId.getD "") ≠ (v.Key.getD "", v.VersionId.getD "")) :=
        ((sortVersions_perm versions).pairwise_iff (fun h => Ne.symm h)).mpr hdist
      rw [hs] at hdists ⊢
      simp only [List.headD_cons]
      exact filter_pairMatch_head hdists
  · by_cases hne : versions = []
    · subst hne
      rw [hempty]
      simp
    · rcases hs : sortVersions versions with _ | ⟨h0, t⟩
      · exact absurd hs (sortVersions_ne_nil hne)
      · rw [handler_page hb hne]
        simp only [rowsOf]
        calc ((renderLoop env (loadQaSprintOverrides raw)
              (((sortVersions versions).headD ⟨none, none, none⟩).Key.getD "")
              (((sortVersions versions).headD ⟨none, none, none⟩).VersionId.getD "")
              (sortVersions versions).length 0 (sortVersions versions)).filter
                Row.isLatest).length
            ≤ ((sortVersions versions).filter
                (pairMatch (((sortVersions versions).headD ⟨none, none, none⟩).Key.getD "")
                  (((sortVersions versions).headD ⟨none, none, none⟩).VersionId.getD ""))).length :=
            renderLoop_filter_isLatest_le _ 0
        _ = 1 := by
            have hdists : (sortVersions versions).Pairwise (fun u v =>
                (u.Key.getD "", u.VersionId.getD "") ≠ (v.Key.getD "", v.VersionId.getD "")) :=
              ((sortVersions_perm versions).pairwise_iff (fun h => Ne.symm h)).mpr hdist
            rw [hs] at hdists ⊢
            simp only [List.headD_cons]
            exact filter_pairMatch_head hdists
        _ ≤ 1 := le_refl 1
  · intro r hr hflag
    by_cases hne : versions = []
    · subst hne
      rw [hempty] at hr
      simp at hr
    · rw [handler_page hb hne] at hr
      simp only [rowsOf] at hr
      have e := renderLoop_isLatest_eq hr
      rw [hflag] at e
      have k := e.symm
      simp only [Bool.and_eq_true, beq_iff_eq] at k
      refine ⟨k.1, k.2, ?_⟩
      intro v hv
      rcases hs : sortVersions versions with _ | ⟨h0, t⟩
      · exact absurd hs (sortVersions_ne_nil hne)
      · simp only [List.headD_cons]
        exact head_time_max hs v hv

/-- C5 witness: in DEV mode, on the ten example builds, exactly one
rendered row is flagged latest. -/
theorem C5_witness :
    ((rowsOf (handler (some "bucket") .DEV none exampleBuilds)).filter
      Row.isLatest).length = 1 :=
  (C5_amended_exactly_one_latest "bucket" .DEV none exampleBuilds (by decide)
    (by decide)).2.1 (by decide)

